import Mathlib

/-!
# Verification of the Book Identity & Deduplication Engine

A shallow embedding, in Lean 4, of `app/core/deduplicator.py` from the
novel-library repository, together with theorems settling the specification
claims about it.

The relational rows (`Book`, `BookVersion`, `BookGroup`) are modelled as plain
records; the database session is modelled as a `Catalog` value holding the row
lists, with SQLAlchemy queries translated to list filtering in row order.
`scalar_one_or_none` is modelled by `scalarOneOrNone`, which errors on more
than one row, mirroring `MultipleResultsFound`.  Operations that can raise
(dangling references, multi-row scalar results) return `Except String`.
Python string operations used by `normalize_title` (`str.lower`, `re.sub`
with literal patterns, `str.strip`) are modelled character-wise on `List Char`.
-/

namespace NovelLib

open List in
/-- `l₁` is a sublist of `l₂`: the order-preserving containment produced by
deleting characters from a string. -/
abbrev CharSublist (l₁ l₂ : List Char) : Prop := l₁ <+ l₂

/-- One row of `book_versions`: a concrete file manifestation of a book. -/
structure BookVersion where
  bookId : Nat
  fileHash : String
  fileSize : Nat
  fileFormat : String
deriving DecidableEq, Repr

/-- One row of `books`.  The `Author` join table is flattened into the
optional author name, which is what the deduplicator compares. -/
structure Book where
  id : Nat
  title : String
  authorName : Option String
  groupId : Option Nat
  addedAt : Int
  libraryId : Nat
deriving DecidableEq, Repr

/-- One row of `book_groups`. -/
structure BookGroup where
  id : Nat
  name : String
  primaryBookId : Nat
deriving DecidableEq, Repr

/-- The persistent catalog state seen by the deduplicator: the row lists (in
result-set order) plus the id counter used for newly created groups. -/
structure Catalog where
  books : List Book
  groups : List BookGroup
  versions : List BookVersion
  nextGroupId : Nat
deriving DecidableEq, Repr

/-- SQLAlchemy `Result.scalar_one_or_none`: `none` on no row, the row when
unique, and a `MultipleResultsFound` error on two or more rows. -/
def scalarOneOrNone {α : Type} : List α → Except String (Option α)
  | [] => .ok none
  | [a] => .ok (some a)
  | _ :: _ :: _ => .error "MultipleResultsFound"

/-- Python truthiness of an `Optional[int]` id column (`None` and `0` are
falsy; real ids start at 1). -/
def truthyId : Option Nat → Bool
  | none => false
  | some n => n != 0

/-- Python truthiness of an `Optional[str]` (`None` and `""` are falsy). -/
def truthyStr : Option String → Bool
  | none => false
  | some s => s != ""

/-- The classification outcome of `Deduplicator.check_duplicate`. -/
inductive Action where
  | skip
  | addVersion
  | newBook
deriving DecidableEq, Repr

/-- `Deduplicator._check_hash_duplicate`: does any version row carry this
exact digest?  Uses `scalar_one_or_none`, so two rows with the same digest
raise. -/
def checkHashDuplicate (c : Catalog) (fileHash : String) : Except String Bool := do
  let r ← scalarOneOrNone (c.versions.filter (fun v => v.fileHash == fileHash))
  pure r.isSome

/-- The row set behind `Deduplicator._find_same_book`: books joined to their
author, filtered by exact author-name and title equality (no trimming). -/
def sameBookRows (c : Catalog) (title author : String) : List Book :=
  c.books.filter (fun b => b.authorName == some author && b.title == title)

/-- `Deduplicator._find_same_book`: the unique book with this exact title and
author, `none` if there is none, an error if there are several. -/
def findSameBook (c : Catalog) (title author : String) : Except String (Option Book) :=
  scalarOneOrNone (sameBookRows c title author)

/-- `Deduplicator.check_duplicate`.  The file's digest is precomputed by the
caller (`calculate_file_hash` is pure I/O).  Returns
`(action, bookId?, reason?)`. -/
def checkDuplicate (enabled : Bool) (c : Catalog) (fileHash title : String)
    (author : Option String) : Except String (Action × Option Nat × Option String) := do
  if !enabled then
    pure (.newBook, none, none)
  else
    let hashDup ← checkHashDuplicate c fileHash
    if hashDup then
      pure (.skip, none, some "文件内容完全相同")
    else
      if truthyStr author then
        match author with
        | some a => do
          let existing ← findSameBook c title a
          match existing with
          | some b => pure (.addVersion, some b.id, some "同一本书的新版本")
          | none => pure (.newBook, none, none)
        | none => pure (.newBook, none, none)
      else
        pure (.newBook, none, none)

/-! ### The title normalizer (`Deduplicator.normalize_title`) -/

/-- Python `str.lower`, character-wise, on the ASCII fragment (the cased
characters relevant to the deduplicator's inputs). -/
def pyLower (c : Char) : Char :=
  if 65 ≤ c.toNat ∧ c.toNat ≤ 90 then Char.ofNat (c.toNat + 32) else c

/-- The whitespace class of Python's `\s` (and of `str.strip`): ASCII
whitespace plus the Unicode space separators. -/
def pyIsSpace (c : Char) : Bool :=
  c ∈ ([' ', '\t', '\n', '\r', '\x0b', '\x0c', '\x1c', '\x1d', '\x1e', '\x1f',
    '\x85', '\xa0', ' ', ' ', ' ', ' ', ' ', ' ',
    ' ', ' ', ' ', ' ', ' ', ' ', ' ',
    ' ', ' ', ' ', '　'] : List Char)

/-- The character class `[\s\-_\.]` collapsed to nothing by the final
substitution step of `normalize_title`. -/
def pySep (c : Char) : Bool :=
  pyIsSpace c || c ∈ (['-', '_', '.'] : List Char)

/-- Python `str.strip`: drop leading and trailing whitespace. -/
def pyStrip (l : List Char) : List Char :=
  ((l.dropWhile pyIsSpace).reverse.dropWhile pyIsSpace).reverse

/-- `re.sub(pat, '', s)` for a literal nonempty pattern: scan left to right,
deleting each (non-overlapping) occurrence of the pattern.  In skipping mode
(`skip > 0`) the next `skip` characters belong to a matched occurrence and
are dropped. -/
def removeOccGo (pat : List Char) : Nat → List Char → List Char
  | _ + 1, [] => []
  | skip + 1, _ :: cs => removeOccGo pat skip cs
  | 0, [] => []
  | 0, c :: cs =>
    if pat.isPrefixOf (c :: cs) then removeOccGo pat (pat.length - 1) cs
    else c :: removeOccGo pat 0 cs

/-- Delete every occurrence of the literal pattern `pat` from `l`. -/
def removeOcc (pat l : List Char) : List Char :=
  if pat.isEmpty then l else removeOccGo pat 0 l

/-- The literal completion/edition markers removed by `normalize_title`, in
source order (`patterns_to_remove`; the regex escapes denote literal
characters, and `re.IGNORECASE` is inert on these caseless patterns). -/
def markerPatterns : List (List Char) :=
  ["[完结]".data, "【完结】".data, "(完结)".data, "（完结）".data,
   "[全本]".data, "【全本】".data, "(全本)".data, "（全本）".data,
   "[精校版]".data, "【精校版】".data, "(精校版)".data, "（精校版）".data,
   "[出版]".data, "【出版】".data, "(出版)".data, "（出版）".data,
   "_精校".data, "-精校".data, ".精校".data,
   "_完本".data, "-完本".data, ".完本".data]

/-- The marker-removal pass: apply the substitutions in source order. -/
def removeMarkers (l : List Char) : List Char :=
  markerPatterns.foldl (fun acc pat => removeOcc pat acc) l

/-- The separator-collapsing pass: `re.sub(r'[\s\-_\.]+', '', s)`. -/
def collapseSeps (l : List Char) : List Char :=
  l.filter (fun c => !pySep c)

/-- `Deduplicator.normalize_title`: lowercase, strip the fixed marker set,
collapse separators to nothing, then strip. -/
def normalizeTitle (s : String) : String :=
  if s = "" then ""
  else ⟨pyStrip (collapseSeps (removeMarkers (s.data.map pyLower)))⟩

/-- The order-swapped variant the spec asserts is equivalent: separator
collapsing performed before marker removal. -/
def normalizeTitleSwapped (s : String) : String :=
  if s = "" then ""
  else ⟨pyStrip (removeMarkers (collapseSeps (s.data.map pyLower)))⟩

/-! ### Catalog grouping operations -/

/-- `select(Book).where(Book.id == id)` read through `scalar_one_or_none`,
under the primary-key uniqueness of `books.id`: the first matching row. -/
def findBook (c : Catalog) (id : Nat) : Option Book :=
  c.books.find? (fun b => b.id == id)

/-- `select(BookGroup).where(BookGroup.id == id)`. -/
def findGroup (c : Catalog) (id : Nat) : Option BookGroup :=
  c.groups.find? (fun g => g.id == id)

/-- Assign `group_id` on the book row with the given id. -/
def setBookGroup (c : Catalog) (bookId : Nat) (gid : Option Nat) : Catalog :=
  { c with books :=
      c.books.map (fun b => if b.id == bookId then { b with groupId := gid } else b) }

/-- Update the primary reference of the group row with the given id. -/
def setPrimaryRef (c : Catalog) (gid bookId : Nat) : Catalog :=
  { c with groups :=
      c.groups.map (fun g => if g.id == gid then { g with primaryBookId := bookId } else g) }

/-- Delete a group row. -/
def deleteGroup (c : Catalog) (gid : Nat) : Catalog :=
  { c with groups := c.groups.filter (fun g => g.id != gid) }

/-- The versions owned by a book (the ORM relationship `b.versions`). -/
def versionsOf (c : Catalog) (b : Book) : List BookVersion :=
  c.versions.filter (fun v => v.bookId == b.id)

/-- Python `max(xs, key=...)`, generalized over a strictly-greater test: fold
left, replacing the current best only on a strictly greater element, so the
first of several maxima wins. -/
def pyMax {α : Type} (gt : α → α → Bool) (x : α) (xs : List α) : α :=
  xs.foldl (fun best y => if gt y best then y else best) x

/-- The outcome dictionary of `ungroup_book`. -/
inductive UngroupRes where
  | error (msg : String)
  | success (bookId : Nat) (bookTitle : String) (wasPrimary : Bool)
deriving DecidableEq, Repr

/-- `Deduplicator.ungroup_book`: remove one book from its group, then clean
up — delete the group when 0 members remain; delete it and clear the last
member's reference when 1 remains; re-elect a primary (most versions, first
row wins ties) when the removed book was primary and 2 or more remain. -/
def ungroupBook (c : Catalog) (bookId : Nat) : Except String (Catalog × UngroupRes) :=
  match findBook c bookId with
  | none => .ok (c, .error "书籍不存在")
  | some book =>
    match book.groupId with
    | none => .ok (c, .error "书籍不在任何组中")
    | some gid =>
      if gid == 0 then .ok (c, .error "书籍不在任何组中")
      else
        match findGroup c gid with
        | none => .error "AttributeError"
        | some group =>
          let wasPrimary := group.primaryBookId == bookId
          let c1 := setBookGroup c bookId none
          let remaining := c1.books.filter (fun b => b.groupId == some gid)
          match remaining with
          | [] => .ok (deleteGroup c1 gid, .success bookId book.title wasPrimary)
          | [r] =>
            .ok (deleteGroup (setBookGroup c1 r.id none) gid,
              .success bookId book.title wasPrimary)
          | r :: rs =>
            if wasPrimary then
              let np := pyMax
                (fun a b => (versionsOf c1 a).length > (versionsOf c1 b).length) r rs
              .ok (setPrimaryRef c1 gid np.id, .success bookId book.title wasPrimary)
            else
              .ok (c1, .success bookId book.title wasPrimary)

/-- The outcome dictionary of `group_books`. -/
inductive GroupRes where
  | error (msg : String)
  | success (groupId : Nat) (groupName : String)
      (primaryBookId bookCount addedCount : Nat)
deriving DecidableEq, Repr

/-- The existing-group scan of `group_books`: the first book id in the list
whose book exists and has a truthy `group_id` yields that group id. -/
def firstGroupedId (c : Catalog) : List Nat → Option Nat
  | [] => none
  | id :: rest =>
    match findBook c id with
    | some b =>
      match b.groupId with
      | some gid => if gid != 0 then some gid else firstGroupedId c rest
      | none => firstGroupedId c rest
    | none => firstGroupedId c rest

/-- One step of the membership-assignment loop of `group_books`: re-query the
book; if it exists and its group differs from the target, reassign it and
count it as added. -/
def assignStep (gid : Nat) (acc : Catalog × Nat) (id : Nat) : Catalog × Nat :=
  match findBook acc.1 id with
  | some b =>
    if b.groupId != some gid then (setBookGroup acc.1 id (some gid), acc.2 + 1) else acc
  | none => acc

/-- `Deduplicator.group_books`: merge books into one group, reusing the first
group found among the member list (updating its primary and, when supplied,
its name) or creating a fresh one named after the primary book. -/
def groupBooks (c : Catalog) (primaryBookId : Nat) (bookIds : List Nat)
    (groupName : Option String) : Except String (Catalog × GroupRes) :=
  match findBook c primaryBookId with
  | none => .ok (c, .error "主书籍不存在")
  | some primaryBook =>
    let ids := if primaryBookId ∈ bookIds then bookIds else bookIds ++ [primaryBookId]
    let existing : Option BookGroup :=
      match firstGroupedId c ids with
      | some gid => findGroup c gid
      | none => none
    let next :=
      match existing with
      | some g =>
        let newName := if truthyStr groupName then groupName.getD g.name else g.name
        ({ c with groups := c.groups.map (fun (g2 : BookGroup) =>
            if g2.id == g.id then { g2 with primaryBookId := primaryBookId, name := newName }
            else g2) },
         g.id, newName)
      | none =>
        let newName :=
          if truthyStr groupName then groupName.getD primaryBook.title else primaryBook.title
        let ng : BookGroup := ⟨c.nextGroupId, newName, primaryBookId⟩
        ({ c with groups := c.groups ++ [ng], nextGroupId := c.nextGroupId + 1 },
         c.nextGroupId, newName)
    let fin := ids.foldl (assignStep next.2.1) (next.1, 0)
    .ok (fin.1, .success next.2.1 next.2.2 primaryBookId ids.length fin.2)

/-- The reshaped outcome dictionary of `merge_books`. -/
inductive MergeRes where
  | error (msg : String)
  | success (keepBookId mergedVersionCount skippedDuplicateCount groupId : Nat)
deriving DecidableEq, Repr

/-- `Deduplicator.merge_books`: legacy alias that calls `group_books` with
`[keep_book_id] + merge_book_ids` and reshapes the success dictionary. -/
def mergeBooks (c : Catalog) (keepBookId : Nat) (mergeBookIds : List Nat) :
    Except String (Catalog × MergeRes) := do
  let r ← groupBooks c keepBookId (keepBookId :: mergeBookIds) none
  match r.2 with
  | .success gid _ _ _ added => pure (r.1, .success keepBookId added 0 gid)
  | .error m => pure (r.1, .error m)

/-- The outcome dictionary of `set_group_primary`. -/
inductive SetPrimaryRes where
  | error (msg : String)
  | success (groupId primaryBookId : Nat) (primaryBookTitle : String)
deriving DecidableEq, Repr

/-- `Deduplicator.set_group_primary`: re-point the group's primary reference
at a verified member; fail (unchanged state) when the group does not exist or
the book is not one of its members. -/
def setGroupPrimary (c : Catalog) (groupId bookId : Nat) : Catalog × SetPrimaryRes :=
  match findGroup c groupId with
  | none => (c, .error "组不存在")
  | some _ =>
    match c.books.find? (fun b => b.id == bookId && b.groupId == some groupId) with
    | none => (c, .error "书籍不在此组中")
    | some book => (setPrimaryRef c groupId bookId, .success groupId bookId book.title)

/-! ### The library-wide duplicate scanner's primary selection -/

/-- `get_priority` from `detect_duplicates_in_library`: (is already the
primary of its group, version count, largest single version file size,
negated added timestamp), compared lexicographically. -/
def getPriority (c : Catalog) (b : Book) : Nat × Nat × Nat × Int :=
  let isPrimary : Nat :=
    match b.groupId with
    | some gid =>
      if gid != 0 then
        match findGroup c gid with
        | some g => if g.primaryBookId == b.id then 1 else 0
        | none => 0
      else 0
    | none => 0
  let vs := versionsOf c b
  (isPrimary, vs.length, (vs.map (fun v => v.fileSize)).foldl max 0, -b.addedAt)

/-- The priority C6 claims, following the spec's wording: its component (c)
is the largest TOTAL version byte size (the sum), where the source uses the
largest single version size.  Kept alongside `getPriority` for comparison. -/
def specClaimedPriority (c : Catalog) (b : Book) : Nat × Nat × Nat × Int :=
  let isPrimary : Nat :=
    match b.groupId with
    | some gid =>
      if gid != 0 then
        match findGroup c gid with
        | some g => if g.primaryBookId == b.id then 1 else 0
        | none => 0
      else 0
    | none => 0
  let vs := versionsOf c b
  (isPrimary, vs.length, (vs.map (fun v => v.fileSize)).sum, -b.addedAt)

/-- Python `>` on the 4-component priority tuples (lexicographic). -/
def prGt (p q : Nat × Nat × Nat × Int) : Bool :=
  if p.1 ≠ q.1 then p.1 > q.1
  else if p.2.1 ≠ q.2.1 then p.2.1 > q.2.1
  else if p.2.2.1 ≠ q.2.2.1 then p.2.2.1 > q.2.2.1
  else p.2.2.2 > q.2.2.2

/-- `suggested = max(group_books, key=get_priority)` over a nonempty cluster
`b :: bs`. -/
def suggestedPrimary (c : Catalog) (b : Book) (bs : List Book) : Book :=
  pyMax (fun a a2 => prGt (getPriority c a) (getPriority c a2)) b bs

/-- The same selection under the spec-claimed priority (total size). -/
def specSuggestedPrimary (c : Catalog) (b : Book) (bs : List Book) : Book :=
  pyMax (fun a a2 => prGt (specClaimedPriority c a) (specClaimedPriority c a2)) b bs

/-! ### Sample catalogs used by witnesses and counterexamples -/

def versionW : BookVersion := ⟨1, "d1", 100, "epub"⟩

def catalogW : Catalog := ⟨[⟨1, "Foo", some "X", none, 0, 1⟩], [], [versionW], 1⟩

def bookExact : Book := ⟨1, "X", some "A", none, 0, 1⟩

def catalogExact : Catalog := ⟨[bookExact], [], [], 1⟩

def catalogMulti : Catalog :=
  ⟨[⟨1, "X", some "A", none, 0, 1⟩, ⟨2, "X", some "A", none, 1, 1⟩], [], [], 1⟩

def cat8 : Catalog :=
  ⟨[⟨1, "T1", some "A", some 1, 0, 1⟩, ⟨2, "T2", some "A", some 1, 1, 1⟩],
   [⟨1, "G", 1⟩], [], 2⟩

def cat9 : Catalog :=
  ⟨[⟨1, "T1", some "A", none, 0, 1⟩, ⟨2, "T2", some "A", none, 1, 1⟩], [], [], 5⟩

def cat9After : Catalog :=
  ⟨[⟨1, "T1", some "A", some 5, 0, 1⟩, ⟨2, "T2", some "A", some 5, 1, 1⟩],
   [⟨5, "T1", 1⟩], [], 6⟩

def cat3members : Catalog :=
  ⟨[⟨1, "T1", some "A", some 1, 0, 1⟩, ⟨2, "T2", some "A", some 1, 1, 1⟩],
   [⟨1, "G", 1⟩], [], 2⟩

def cat5 : Catalog :=
  ⟨[⟨1, "T1", some "A", some 1, 0, 1⟩, ⟨2, "T2", some "A", some 1, 1, 1⟩,
    ⟨3, "T3", some "A", some 1, 2, 1⟩], [⟨1, "G", 1⟩], [], 2⟩

def cat7 : Catalog :=
  ⟨[⟨1, "T1", some "A", some 1, 0, 1⟩, ⟨2, "T2", some "A", some 1, 1, 1⟩,
    ⟨3, "T3", some "A", some 1, 2, 1⟩], [⟨1, "G", 1⟩],
   [⟨2, "h2", 10, "epub"⟩, ⟨2, "h2b", 11, "txt"⟩, ⟨3, "h3", 5, "epub"⟩], 2⟩

def bookA6 : Book := ⟨1, "T", some "A", none, 0, 1⟩

def bookB6 : Book := ⟨2, "T", some "A", none, 1, 1⟩

def cat6 : Catalog :=
  ⟨[bookA6, bookB6], [],
   [⟨1, "a1", 10, "epub"⟩, ⟨1, "a2", 10, "txt"⟩, ⟨2, "b1", 15, "epub"⟩,
    ⟨2, "b2", 1, "txt"⟩], 1⟩

/-! ## Theorems -/

/-- In a version list with pairwise-distinct digests, filtering by the digest
of a member returns exactly that member. -/
theorem filter_hash_eq_singleton {l : List BookVersion} {v : BookVersion} {h : String}
    (hp : l.Pairwise (fun a b => a.fileHash ≠ b.fileHash))
    (hv : v ∈ l) (hh : v.fileHash = h) :
    l.filter (fun w => w.fileHash == h) = [v] := by
  induction l with
  | nil => cases hv
  | cons x xs ih =>
    rcases List.pairwise_cons.mp hp with ⟨hx, hxs⟩
    rcases List.mem_cons.mp hv with hv | hv
    · subst hv
      have hrest : xs.filter (fun w => w.fileHash == h) = [] := by
        refine List.filter_eq_nil_iff.mpr (fun a ha => ?_)
        simp only [beq_iff_eq]
        intro hcontra
        exact hx a ha (hh.trans hcontra.symm)
      simp [List.filter_cons, hh, hrest]
    · have hxh : x.fileHash ≠ h := by
        intro hcontra
        exact hx v hv (hcontra.trans hh.symm)
      simp [List.filter_cons, hxh, ih hxs hv]

/-- A scalar query over two or more rows raises `MultipleResultsFound`. -/
theorem scalarOneOrNone_error_of_two_le {α : Type} {l : List α} (h : 2 ≤ l.length) :
    scalarOneOrNone l = .error "MultipleResultsFound" := by
  match l with
  | [] => simp at h
  | [a] => simp at h
  | a :: b :: t => rfl

/-- C1: if some existing version already carries the file's digest, then
`check_duplicate` returns `skip` with the duplicate-content reason, whatever
title and author are supplied; the digest check runs before any title/author
comparison.  Digest uniqueness across the catalog is the spec's stated
invariant on versions. -/
theorem checkDuplicate_skip_on_digest_match
    (c : Catalog) (v : BookVersion) (fileHash title : String) (author : Option String)
    (huniq : c.versions.Pairwise (fun a b => a.fileHash ≠ b.fileHash))
    (hv : v ∈ c.versions) (hh : v.fileHash = fileHash) :
    checkDuplicate true c fileHash title author =
      .ok (.skip, none, some "文件内容完全相同") := by
  have hf := filter_hash_eq_singleton huniq hv hh
  simp only [checkDuplicate, checkHashDuplicate, hf]
  rfl

theorem checkDuplicate_skip_on_digest_match_witness :
    checkDuplicate true catalogW "d1" "Bar" (some "Y") =
      .ok (.skip, none, some "文件内容完全相同") :=
  checkDuplicate_skip_on_digest_match catalogW versionW "d1" "Bar" (some "Y")
    (by decide) (by decide) (by decide)

/-- C2 counterexample: the title comparison is raw string equality, with no
trimming.  The catalog holds a book titled `"X"` by author `"A"`; classifying
a fresh file under the title `" X"` (equal to `"X"` after stripping) and the
same author yields `new_book`, not `add_version`, refuting the claimed
post-trim matching. -/
theorem checkDuplicate_trim_counterexample :
    checkDuplicate true catalogExact "d2" " X" (some "A") = .ok (.newBook, none, none)
      ∧ pyStrip " X".data = "X".data
      ∧ bookExact ∈ catalogExact.books
      ∧ bookExact.title = "X" ∧ bookExact.authorName = some "A" :=
  ⟨rfl, by decide, by decide, rfl, rfl⟩

/-- C2 (amended): when no version matches the digest and a non-empty author
is supplied, `check_duplicate` matches books by raw (untrimmed) exact title
and author string equality: with exactly one matching book it returns
`add_version` against that book's id, and with no matching book it returns
`new_book`. -/
theorem checkDuplicate_exact_title_author_match
    (c : Catalog) (fileHash title author : String) (b : Book)
    (hnohash : c.versions.filter (fun v => v.fileHash == fileHash) = [])
    (hne : author ≠ "") :
    (sameBookRows c title author = [b] →
        checkDuplicate true c fileHash title (some author) =
          .ok (.addVersion, some b.id, some "同一本书的新版本"))
      ∧ (sameBookRows c title author = [] →
        checkDuplicate true c fileHash title (some author) = .ok (.newBook, none, none)) := by
  constructor
  · intro hone
    simp only [checkDuplicate, checkHashDuplicate, findSameBook, hnohash, hone]
    simp only [truthyStr, scalarOneOrNone]
    simp only [hne, ne_eq, not_false_eq_true, bne_iff_ne, if_true]
    rfl
  · intro hzero
    simp only [checkDuplicate, checkHashDuplicate, findSameBook, hnohash, hzero]
    simp only [truthyStr, scalarOneOrNone]
    simp only [hne, ne_eq, not_false_eq_true, bne_iff_ne, if_true]
    rfl

theorem checkDuplicate_exact_title_author_match_witness :
    checkDuplicate true catalogExact "d2" "X" (some "A") =
      .ok (.addVersion, some 1, some "同一本书的新版本") :=
  (checkDuplicate_exact_title_author_match catalogExact "d2" "X" "A" bookExact
    (by decide) (by decide)).1 (by decide)

/-- C10: when a non-empty author is supplied, no version matches the digest,
and two or more books carry exactly the supplied title and author, the
single-row lookup in `_find_same_book` raises `MultipleResultsFound` instead
of returning `add_version` against one of them. -/
theorem checkDuplicate_multiple_match_error
    (c : Catalog) (fileHash title author : String)
    (hnohash : c.versions.filter (fun v => v.fileHash == fileHash) = [])
    (hne : author ≠ "")
    (hmulti : 2 ≤ (sameBookRows c title author).length) :
    checkDuplicate true c fileHash title (some author) = .error "MultipleResultsFound" := by
  simp only [checkDuplicate, checkHashDuplicate, findSameBook, hnohash,
    scalarOneOrNone_error_of_two_le hmulti]
  simp only [truthyStr]
  simp only [hne, ne_eq, not_false_eq_true, bne_iff_ne, if_true]
  rfl

theorem checkDuplicate_multiple_match_error_witness :
    checkDuplicate true catalogMulti "d9" "X" (some "A") = .error "MultipleResultsFound" :=
  checkDuplicate_multiple_match_error catalogMulti "d9" "X" "A"
    (by decide) (by decide) (by decide)

/-! ### The normalizer: supporting lemmas -/

theorem toNat_ofNat_of_valid {n : Nat} (h : Nat.isValidChar n) :
    (Char.ofNat n).toNat = n := by
  simp [Char.ofNat, h, Char.toNat, Char.ofNatAux, UInt32.toNat, BitVec.toNat_ofNatLt]

/-- Character-wise lowercasing is idempotent. -/
theorem pyLower_idem (c : Char) : pyLower (pyLower c) = pyLower c := by
  unfold pyLower
  by_cases h : 65 ≤ c.toNat ∧ c.toNat ≤ 90
  · rw [if_pos h]
    have hv : Nat.isValidChar (c.toNat + 32) := Or.inl (by omega)
    have ht : (Char.ofNat (c.toNat + 32)).toNat = c.toNat + 32 := toNat_ofNat_of_valid hv
    rw [if_neg (by rw [ht]; omega)]
  · rw [if_neg h, if_neg h]

/-- Deleting pattern occurrences yields a sublist of the input. -/
theorem removeOccGo_sublist (pat : List Char) :
    ∀ (skip : Nat) (l : List Char), CharSublist (removeOccGo pat skip l) l := by
  intro skip l
  induction l generalizing skip with
  | nil => cases skip <;> simp [removeOccGo]
  | cons c cs ih =>
    cases skip with
    | zero =>
      simp only [removeOccGo]
      split
      · exact (ih _).trans (List.sublist_cons_self c cs)
      · exact (ih 0).cons₂ c
    | succ k =>
      simp only [removeOccGo]
      exact (ih k).trans (List.sublist_cons_self c cs)

theorem removeOcc_sublist (pat l : List Char) : CharSublist (removeOcc pat l) l := by
  unfold removeOcc
  split
  · exact List.Sublist.refl l
  · exact removeOccGo_sublist pat 0 l

theorem removeMarkers_sublist (l : List Char) : CharSublist (removeMarkers l) l := by
  suffices h : ∀ (ps : List (List Char)) (acc : List Char),
      CharSublist (ps.foldl (fun acc pat => removeOcc pat acc) acc) acc by
    exact h markerPatterns l
  intro ps
  induction ps with
  | nil => intro acc; simp
  | cons p ps ih =>
    intro acc
    exact (ih (removeOcc p acc)).trans (removeOcc_sublist p acc)

theorem pyStrip_sublist (l : List Char) : CharSublist (pyStrip l) l := by
  unfold pyStrip
  have h1 : CharSublist (l.dropWhile pyIsSpace) l := List.dropWhile_sublist _
  have h2 : CharSublist ((l.dropWhile pyIsSpace).reverse.dropWhile pyIsSpace)
      (l.dropWhile pyIsSpace).reverse := List.dropWhile_sublist _
  have h3 := h2.reverse
  rw [List.reverse_reverse] at h3
  exact h3.trans h1

theorem dropWhile_eq_self_of_none {p : Char → Bool} {l : List Char}
    (h : ∀ c ∈ l, p c = false) : l.dropWhile p = l := by
  cases l with
  | nil => rfl
  | cons a t => simp [List.dropWhile_cons, h a (List.mem_cons_self a t)]

theorem pyStrip_eq_self_of_noSpace {l : List Char}
    (h : ∀ c ∈ l, pyIsSpace c = false) : pyStrip l = l := by
  unfold pyStrip
  rw [dropWhile_eq_self_of_none h,
    dropWhile_eq_self_of_none (fun c hc => h c (List.mem_reverse.mp hc)),
    List.reverse_reverse]

theorem collapseSeps_eq_self {l : List Char}
    (h : ∀ c ∈ l, pySep c = false) : collapseSeps l = l := by
  unfold collapseSeps
  exact List.filter_eq_self.mpr (fun c hc => by simp [h c hc])

theorem map_pyLower_eq_self {l : List Char} (h : ∀ c ∈ l, pyLower c = c) :
    l.map pyLower = l := by
  induction l with
  | nil => rfl
  | cons a t ih =>
    simp only [List.map_cons]
    rw [h a (List.mem_cons_self a t), ih (fun c hc => h c (List.mem_cons_of_mem a hc))]

/-- C4 counterexample: `normalize_title` is not idempotent, and performing the
separator collapse before the marker removal changes its result.  On
`"[完_结]"` the first pass removes no marker (the underscore splits one) but
the collapse step glues `"[完结]"` together, which a second pass then deletes;
the swapped order deletes it on the first pass already. -/
theorem normalizeTitle_not_idempotent :
    normalizeTitle (normalizeTitle "[完_结]") ≠ normalizeTitle "[完_结]"
      ∧ normalizeTitleSwapped "[完_结]" ≠ normalizeTitle "[完_结]" := by
  constructor <;> decide

/-- C4 (amended): `normalize_title` is idempotent exactly on the inputs whose
normalized form contains no residual removable marker: whenever the
marker-removal pass leaves `normalize_title x` unchanged, a second
normalization is the identity.  (In general neither idempotence nor the
marker-removal/collapse order independence holds, see the counterexample.) -/
theorem normalizeTitle_idem_of_marker_free (x : String)
    (h : removeMarkers (normalizeTitle x).data = (normalizeTitle x).data) :
    normalizeTitle (normalizeTitle x) = normalizeTitle x := by
  have hkey : ∀ w : List Char, ∀ c ∈ pyStrip (collapseSeps w),
      pySep c = false ∧ c ∈ w := by
    intro w c hc
    have hc2 : c ∈ collapseSeps w := (pyStrip_sublist _).subset hc
    have hc3 := List.of_mem_filter hc2
    exact ⟨by simpa using hc3, (List.filter_sublist _).subset hc2⟩
  by_cases hx : x = ""
  · subst hx; rfl
  · by_cases hy0 : normalizeTitle x = ""
    · rw [hy0]; rfl
    · have hydata : (normalizeTitle x).data
          = pyStrip (collapseSeps (removeMarkers (x.data.map pyLower))) := by
        rw [normalizeTitle, if_neg hx]
      have hmemsep : ∀ c ∈ (normalizeTitle x).data, pySep c = false := by
        intro c hc
        rw [hydata] at hc
        exact (hkey _ c hc).1
      have hmemlow : ∀ c ∈ (normalizeTitle x).data, pyLower c = c := by
        intro c hc
        rw [hydata] at hc
        have hc3 : c ∈ removeMarkers (x.data.map pyLower) := (hkey _ c hc).2
        have hc4 : c ∈ x.data.map pyLower := (removeMarkers_sublist _).subset hc3
        rcases List.mem_map.mp hc4 with ⟨a, _, rfl⟩
        exact pyLower_idem a
      have hspace : ∀ c ∈ (normalizeTitle x).data, pyIsSpace c = false := by
        intro c hc
        have hs := hmemsep c hc
        unfold pySep at hs
        exact (Bool.or_eq_false_iff.mp hs).1
      conv_lhs => rw [normalizeTitle]
      rw [if_neg hy0, map_pyLower_eq_self hmemlow, h, collapseSeps_eq_self hmemsep,
        pyStrip_eq_self_of_noSpace hspace]

theorem normalizeTitle_idem_of_marker_free_witness :
    normalizeTitle (normalizeTitle "Abc [完结]") = normalizeTitle "Abc [完结]" :=
  normalizeTitle_idem_of_marker_free "Abc [完结]" (by decide)

/-! ### Python `max` selection lemmas -/

/-- The element Python's `max` picks is in the list. -/
theorem pyMax_mem {α : Type} (gt : α → α → Bool) (x : α) (xs : List α) :
    pyMax gt x xs ∈ x :: xs := by
  induction xs generalizing x with
  | nil => simp [pyMax]
  | cons y t ih =>
    have hstep : pyMax gt x (y :: t) = pyMax gt (if gt y x then y else x) t := rfl
    rw [hstep]
    have hm := ih (if gt y x then y else x)
    rcases List.mem_cons.mp hm with hm | hm
    · rw [hm]
      by_cases hgt : gt y x = true
      · simp [hgt]
      · simp [hgt]
    · simp [hm]

/-- No list element is strictly greater than the element Python's `max`
picks (`gt` must be transitive, irreflexive, and negatively transitive, as a
strict total comparison is). -/
theorem pyMax_not_gt {α : Type} (gt : α → α → Bool)
    (htrans : ∀ a b c, gt a b = true → gt b c = true → gt a c = true)
    (hirrefl : ∀ a, gt a a = false)
    (hnegtrans : ∀ a b c, gt a b = false → gt b c = false → gt a c = false)
    (x : α) (xs : List α) :
    ∀ z ∈ x :: xs, gt z (pyMax gt x xs) = false := by
  induction xs generalizing x with
  | nil =>
    intro z hz
    rcases List.mem_cons.mp hz with hz | hz
    · rw [hz]; exact hirrefl x
    · cases hz
  | cons y t ih =>
    intro z hz
    have hstep : pyMax gt x (y :: t) = pyMax gt (if gt y x then y else x) t := rfl
    rw [hstep]
    by_cases hgt : gt y x = true
    · rw [if_pos hgt]
      rcases List.mem_cons.mp hz with hz | hz
      · rw [hz]
        by_contra hc
        have hzm : gt x (pyMax gt y t) = true := by
          cases hcc : gt x (pyMax gt y t) with
          | true => rfl
          | false => exact absurd hcc hc
        have hym : gt y (pyMax gt y t) = false :=
          ih y y (List.mem_cons_self y t)
        have := htrans y x (pyMax gt y t) hgt hzm
        rw [this] at hym
        cases hym
      · exact ih y z hz
    · rw [if_neg hgt]
      have hgt2 : gt y x = false := by
        cases hcc : gt y x with
        | true => exact absurd hcc hgt
        | false => rfl
      rcases List.mem_cons.mp hz with hz | hz
      · rw [hz]
        exact ih x x (List.mem_cons_self x t)
      · rcases List.mem_cons.mp hz with hz2 | hz2
        · rw [hz2]
          have hxm : gt x (pyMax gt x t) = false :=
            ih x x (List.mem_cons_self x t)
          exact hnegtrans y x (pyMax gt x t) hgt2 hxm
        · exact ih x z (List.mem_cons_of_mem x hz2)

/-- Among elements tied with the chosen maximum (neither strictly greater
than the other), Python's `max` keeps the first one: on a list whose `idf`
values strictly increase, the chosen element has the least `idf` among its
ties. -/
theorem pyMax_tie_first {α : Type} (gt : α → α → Bool) (idf : α → Nat)
    (htrans : ∀ a b c, gt a b = true → gt b c = true → gt a c = true)
    (hirrefl : ∀ a, gt a a = false)
    (hnegtrans : ∀ a b c, gt a b = false → gt b c = false → gt a c = false)
    (x : α) (xs : List α)
    (hsorted : (x :: xs).Pairwise (fun a b => idf a < idf b)) :
    ∀ z ∈ x :: xs, gt z (pyMax gt x xs) = false → gt (pyMax gt x xs) z = false →
      idf (pyMax gt x xs) ≤ idf z := by
  induction xs generalizing x with
  | nil =>
    intro z hz _ _
    rcases List.mem_cons.mp hz with hz | hz
    · subst hz
      exact Nat.le_refl _
    · cases hz
  | cons y t ih =>
    intro z hz hzm hmz
    have hstep : pyMax gt x (y :: t) = pyMax gt (if gt y x then y else x) t := rfl
    rw [hstep] at hzm hmz ⊢
    rcases List.pairwise_cons.mp hsorted with ⟨hxlt, hyt⟩
    by_cases hgt : gt y x = true
    · rw [if_pos hgt] at hzm hmz ⊢
      rcases List.mem_cons.mp hz with hz | hz
      · -- z = x, but then y > x contradicts x being tied with the maximum
        rw [hz] at hmz
        have hym : gt y (pyMax gt y t) = false :=
          pyMax_not_gt gt htrans hirrefl hnegtrans y t y (List.mem_cons_self y t)
        have := hnegtrans y (pyMax gt y t) x hym hmz
        rw [this] at hgt
        cases hgt
      · exact ih y hyt z hz hzm hmz
    · rw [if_neg hgt] at hzm hmz ⊢
      have hgt2 : gt y x = false := by
        cases hcc : gt y x with
        | true => exact absurd hcc hgt
        | false => rfl
      have hxt : (x :: t).Pairwise (fun a b => idf a < idf b) := by
        refine List.pairwise_cons.mpr ⟨?_, (List.pairwise_cons.mp hyt).2⟩
        intro b hb
        exact hxlt b (List.mem_cons_of_mem y hb)
      rcases List.mem_cons.mp hz with hz | hz
      · rw [hz] at hzm hmz ⊢
        exact ih x hxt x (List.mem_cons_self x t) hzm hmz
      · rcases List.mem_cons.mp hz with hz2 | hz2
        · -- z = y: the maximum is tied with x as well, which precedes y
          rw [hz2] at hzm hmz ⊢
          have hxm : gt x (pyMax gt x t) = false :=
            pyMax_not_gt gt htrans hirrefl hnegtrans x t x (List.mem_cons_self x t)
          have hmx : gt (pyMax gt x t) x = false := hnegtrans _ y x hmz hgt2
          have hle : idf (pyMax gt x t) ≤ idf x :=
            ih x hxt x (List.mem_cons_self x t) hxm hmx
          have hlt : idf x < idf y := hxlt y (List.mem_cons_self y t)
          omega
        · exact ih x hxt z (List.mem_cons_of_mem x hz2) hzm hmz

/-! ### C8: `set_group_primary` -/

/-- C8: `set_group_primary` fails with a not-found outcome both when the
group does not exist and when the book is not currently one of its members,
leaving the catalog unchanged in either case; on success it returns the
member's data, leaves books and versions untouched, and changes exactly the
target group's primary reference. -/
theorem setGroupPrimary_spec (c : Catalog) (groupId bookId : Nat) :
    (findGroup c groupId = none →
        setGroupPrimary c groupId bookId = (c, .error "组不存在"))
    ∧ (findGroup c groupId ≠ none →
        c.books.find? (fun b => b.id == bookId && b.groupId == some groupId) = none →
        setGroupPrimary c groupId bookId = (c, .error "书籍不在此组中"))
    ∧ (∀ book,
        c.books.find? (fun b => b.id == bookId && b.groupId == some groupId) = some book →
        findGroup c groupId ≠ none →
        (setGroupPrimary c groupId bookId).1.books = c.books
          ∧ (setGroupPrimary c groupId bookId).1.versions = c.versions
          ∧ (setGroupPrimary c groupId bookId).2 = .success groupId bookId book.title
          ∧ ∀ g ∈ (setGroupPrimary c groupId bookId).1.groups,
              (g.id = groupId ∧ ∃ g0 ∈ c.groups, g0.id = groupId
                  ∧ g = { g0 with primaryBookId := bookId })
                ∨ (g.id ≠ groupId ∧ g ∈ c.groups)) := by
  refine ⟨?_, ?_, ?_⟩
  · intro hg
    simp [setGroupPrimary, hg]
  · intro hg hb
    rcases hgs : findGroup c groupId with _ | g
    · exact absurd hgs hg
    · simp [setGroupPrimary, hgs, hb]
  · intro book hb hg
    rcases hgs : findGroup c groupId with _ | g
    · exact absurd hgs hg
    · refine ⟨by simp [setGroupPrimary, hgs, hb, setPrimaryRef],
        by simp [setGroupPrimary, hgs, hb, setPrimaryRef],
        by simp [setGroupPrimary, hgs, hb, setPrimaryRef], ?_⟩
      intro g2 hg2
      simp only [setGroupPrimary, hgs, hb, setPrimaryRef] at hg2
      rcases List.mem_map.mp hg2 with ⟨g0, hg0, hg0eq⟩
      by_cases hid : (g0.id == groupId) = true
      · rw [if_pos hid] at hg0eq
        left
        refine ⟨by rw [← hg0eq]; exact eq_of_beq hid, g0, hg0,
          eq_of_beq hid, hg0eq.symm⟩
      · rw [if_neg hid] at hg0eq
        right
        refine ⟨by rw [← hg0eq]; simpa using hid, hg0eq ▸ hg0⟩

theorem setGroupPrimary_spec_witness :
    (setGroupPrimary cat8 1 2).1.books = cat8.books
      ∧ (setGroupPrimary cat8 1 2).2 = .success 1 2 "T2"
      ∧ setGroupPrimary cat8 1 9 = (cat8, .error "书籍不在此组中")
      ∧ setGroupPrimary cat8 9 1 = (cat8, .error "组不存在") := by
  have h1 := (setGroupPrimary_spec cat8 1 2).2.2 ⟨2, "T2", some "A", some 1, 1, 1⟩
    (by decide) (by decide)
  have h2 := (setGroupPrimary_spec cat8 1 9).2.1 (by decide) (by decide)
  have h3 := (setGroupPrimary_spec cat8 9 1).1 (by decide)
  exact ⟨h1.1, h1.2.2.1, h2, h3⟩

/-! ### C9: `merge_books` vs `group_books` -/

/-- C9: `merge_books(keep, others)` never diverges from
`group_books(keep, [keep] + others)`: it produces the identical resulting
catalog in every case, propagates raised errors unchanged, passes error
dictionaries through unchanged, and reshapes a success dictionary into the
legacy shape carrying the same group id and added count. -/
theorem mergeBooks_eq_groupBooks (c : Catalog) (keep : Nat) (ids : List Nat) :
    (∀ e, groupBooks c keep (keep :: ids) none = .error e →
        mergeBooks c keep ids = .error e)
    ∧ (∀ c2 gid name p bc added,
        groupBooks c keep (keep :: ids) none = .ok (c2, .success gid name p bc added) →
        mergeBooks c keep ids = .ok (c2, .success keep added 0 gid))
    ∧ (∀ c2 msg, groupBooks c keep (keep :: ids) none = .ok (c2, .error msg) →
        mergeBooks c keep ids = .ok (c2, .error msg)) := by
  refine ⟨?_, ?_, ?_⟩
  · intro e he
    simp only [mergeBooks, he]
    rfl
  · intro c2 gid name p bc added hok
    simp only [mergeBooks, hok]
    rfl
  · intro c2 msg hok
    simp only [mergeBooks, hok]
    rfl

theorem mergeBooks_eq_groupBooks_witness :
    mergeBooks cat9 1 [2] = .ok (cat9After, .success 1 2 0 5) :=
  (mergeBooks_eq_groupBooks cat9 1 [2]).2.1 cat9After 5 "T1" 1 2 2 rfl

/-! ### C5: idempotence of `group_books` -/

/-- When the first book id in the scan exists with a truthy group id, the
scan yields that group id. -/
theorem firstGroupedId_head (c : Catalog) (id : Nat) (rest : List Nat) (b : Book) (gid : Nat)
    (hfind : findBook c id = some b) (hgid : b.groupId = some gid) (h0 : gid ≠ 0) :
    firstGroupedId c (id :: rest) = some gid := by
  simp only [firstGroupedId, hfind, hgid]
  simp [h0]

/-- The assignment loop is inert on books that are already members of the
target group. -/
theorem assign_loop_inert (gid : Nat) (cc : Catalog) (n : Nat) :
    ∀ ids : List Nat,
      (∀ id ∈ ids, ∃ b, findBook cc id = some b ∧ b.groupId = some gid) →
      ids.foldl (assignStep gid) (cc, n) = (cc, n) := by
  intro ids
  induction ids with
  | nil => intro _; rfl
  | cons i rest ih =>
    intro hall
    rcases hall i (List.mem_cons_self i rest) with ⟨b, hb, hbg⟩
    have hstep : assignStep gid (cc, n) i = (cc, n) := by
      simp [assignStep, hb, hbg]
    rw [List.foldl_cons, hstep]
    exact ih (fun id hid => hall id (List.mem_cons_of_mem i hid))

/-- C5: `group_books` is idempotent on an already-fully-grouped set: when the
primary book is in the list and every listed book exists and is already a
member of the existing target group, the call succeeds reporting
`added_count = 0` and leaves every book row — hence every group
membership — unchanged. -/
theorem groupBooks_idempotent (c : Catalog) (p gid : Nat) (bookIds : List Nat)
    (pb : Book) (g : BookGroup)
    (hp : findBook c p = some pb)
    (hmem : p ∈ bookIds)
    (h0 : gid ≠ 0)
    (hg : findGroup c gid = some g)
    (hall : ∀ id ∈ bookIds, ∃ b, findBook c id = some b ∧ b.groupId = some gid) :
    ∃ c2, groupBooks c p bookIds none = .ok (c2, .success gid g.name p bookIds.length 0)
      ∧ c2.books = c.books := by
  have hgid_eq : g.id = gid := by
    have hpred := List.find?_some hg
    exact eq_of_beq hpred
  obtain ⟨i, rest, hbi⟩ : ∃ i rest, bookIds = i :: rest := by
    cases bookIds with
    | nil => cases hmem
    | cons a b => exact ⟨a, b, rfl⟩
  subst hbi
  rcases hall i (List.mem_cons_self i rest) with ⟨b, hb, hbg⟩
  have hfirst : firstGroupedId c (i :: rest) = some gid :=
    firstGroupedId_head c i rest b gid hb hbg h0
  refine ⟨{ c with groups := c.groups.map (fun (g2 : BookGroup) =>
    if g2.id == g.id then { g2 with primaryBookId := p, name := g.name } else g2) }, ?_, rfl⟩
  have hfold := assign_loop_inert gid
    { c with groups := c.groups.map (fun (g2 : BookGroup) =>
        if g2.id == g.id then { g2 with primaryBookId := p, name := g.name } else g2) }
    0 (i :: rest) (fun id hid => hall id hid)
  simp only [hgid_eq, beq_iff_eq] at hfold
  simp [groupBooks, hp, hfirst, hg, truthyStr, hmem, hgid_eq, hfold]

/-! ### C3: `ungroup_book` dissolves groups of size at most one -/

/-- Clearing the removed book's membership and then filtering for the
group's members equals filtering the original rows for members other than
the removed book. -/
theorem filter_map_clear (l : List Book) (bid gid : Nat) :
    (l.map (fun b => if b.id == bid then { b with groupId := none } else b)).filter
        (fun b => b.groupId == some gid)
      = l.filter (fun b => !(b.id == bid) && b.groupId == some gid) := by
  induction l with
  | nil => rfl
  | cons a t ih =>
    cases hid : a.id == bid with
    | true => simp_all [List.filter_cons]
    | false => simp_all [List.filter_cons]

/-- C3: after a successful `ungroup_book` that leaves at most one other
member in the removed book's group, that group's row is gone and no book row
references it any more: a group never survives with one or zero members. -/
theorem ungroupBook_dissolves_small_group (c : Catalog) (bid gid : Nat)
    (book : Book) (g : BookGroup)
    (hfind : findBook c bid = some book)
    (hgid : book.groupId = some gid) (h0 : gid ≠ 0)
    (hgrp : findGroup c gid = some g)
    (hk : (c.books.filter (fun b => !(b.id == bid) && b.groupId == some gid)).length ≤ 1) :
    ∃ c2 wp, ungroupBook c bid = .ok (c2, .success bid book.title wp)
      ∧ (∀ g2 ∈ c2.groups, g2.id ≠ gid)
      ∧ (∀ b ∈ c2.books, b.groupId ≠ some gid) := by
  rcases hlen : c.books.filter (fun b => !(b.id == bid) && b.groupId == some gid)
    with _ | ⟨r, rrest⟩
  · -- no other member: the group row is deleted
    have hrem : (setBookGroup c bid none).books.filter (fun b => b.groupId == some gid)
        = [] := by
      rw [setBookGroup, filter_map_clear]
      exact hlen
    refine ⟨deleteGroup (setBookGroup c bid none) gid, g.primaryBookId == bid, ?_, ?_, ?_⟩
    · simp only [ungroupBook, hfind, hgid, hgrp]
      simp [h0, hrem]
    · intro g2 hg2
      simp only [deleteGroup] at hg2
      have := List.of_mem_filter hg2
      simpa using this
    · intro b hb
      simp only [deleteGroup, setBookGroup] at hb
      rcases List.mem_map.mp hb with ⟨b0, hb0, heq⟩
      cases hid : b0.id == bid with
      | true =>
        rw [← heq]
        simp [hid]
      | false =>
        rw [← heq]
        simp only [hid]
        intro hcontra
        simp at hcontra
        have hmem : b0 ∈ c.books.filter (fun b => !(b.id == bid) && b.groupId == some gid) :=
          List.mem_filter.mpr ⟨hb0, by simp [hid, hcontra]⟩
        rw [hlen] at hmem
        cases hmem
  · rcases rrest with _ | ⟨r2, rr⟩
    · -- exactly one other member: group deleted, its reference cleared
      have hrem : (setBookGroup c bid none).books.filter (fun b => b.groupId == some gid)
          = [r] := by
        rw [setBookGroup, filter_map_clear]
        exact hlen
      refine ⟨deleteGroup (setBookGroup (setBookGroup c bid none) r.id none) gid,
        g.primaryBookId == bid, ?_, ?_, ?_⟩
      · simp only [ungroupBook, hfind, hgid, hgrp]
        simp [h0, hrem]
      · intro g2 hg2
        simp only [deleteGroup] at hg2
        have := List.of_mem_filter hg2
        simpa using this
      · intro b hb
        simp only [deleteGroup, setBookGroup] at hb
        rcases List.mem_map.mp hb with ⟨b1, hb1, heq1⟩
        rcases List.mem_map.mp hb1 with ⟨b0, hb0, heq0⟩
        cases hidr : b1.id == r.id with
        | true =>
          rw [← heq1]
          simp [hidr]
        | false =>
          rw [← heq1]
          simp only [hidr]
          cases hid : b0.id == bid with
          | true =>
            rw [← heq0]
            simp [hid]
          | false =>
            rw [← heq0]
            simp only [hid]
            intro hcontra
            simp at hcontra
            have hmem : b0 ∈ c.books.filter
                (fun b => !(b.id == bid) && b.groupId == some gid) :=
              List.mem_filter.mpr ⟨hb0, by simp [hid, hcontra]⟩
            rw [hlen] at hmem
            rcases List.mem_cons.mp hmem with hbr | hbr
            · -- the survivor is `r`, whose reference was cleared
              rw [hid] at heq0
              simp at heq0
              rw [← heq0, hbr] at hidr
              simp at hidr
            · cases hbr
    · -- two or more other members cannot occur under the size hypothesis
      rw [hlen] at hk
      simp at hk

theorem ungroupBook_dissolves_small_group_witness :
    ∃ c2 wp, ungroupBook cat3members 2 = .ok (c2, .success 2 "T2" wp)
      ∧ (∀ g2 ∈ c2.groups, g2.id ≠ 1)
      ∧ (∀ b ∈ c2.books, b.groupId ≠ some 1) :=
  ungroupBook_dissolves_small_group cat3members 2 1
    ⟨2, "T2", some "A", some 1, 1, 1⟩ ⟨1, "G", 1⟩
    (by decide) (by decide) (by decide) (by decide) (by decide)

theorem groupBooks_idempotent_witness :
    ∃ c2, groupBooks cat5 1 [1, 2, 3] none = .ok (c2, .success 1 "G" 1 3 0)
      ∧ c2.books = cat5.books :=
  groupBooks_idempotent cat5 1 1 [1, 2, 3] ⟨1, "T1", some "A", some 1, 0, 1⟩ ⟨1, "G", 1⟩
    (by decide) (by decide) (by decide) (by decide)
    (by
      intro id hid
      fin_cases hid
      · exact ⟨⟨1, "T1", some "A", some 1, 0, 1⟩, rfl, rfl⟩
      · exact ⟨⟨2, "T2", some "A", some 1, 1, 1⟩, rfl, rfl⟩
      · exact ⟨⟨3, "T3", some "A", some 1, 2, 1⟩, rfl, rfl⟩)

/-! ### C7: `ungroup_book` re-elects the primary -/

/-- Updating one book's group assignment preserves the ids of all rows, so
it preserves a strictly increasing id order. -/
theorem pairwise_id_setBookGroup (c : Catalog) (bid : Nat) (gid2 : Option Nat)
    (h : c.books.Pairwise (fun a b => a.id < b.id)) :
    (setBookGroup c bid gid2).books.Pairwise (fun a b => a.id < b.id) := by
  simp only [setBookGroup]
  have hid : ∀ x : Book,
      ((if x.id == bid then { x with groupId := gid2 } else x) : Book).id = x.id := by
    intro x
    cases hx : x.id == bid <;> simp [hx]
  refine List.Pairwise.map _ ?_ h
  intro a b hab
  rw [hid a, hid b]
  exact hab

/-- Re-pointing the primary of the group row found under `gid` yields the
same row with only its primary reference changed. -/
theorem findGroup_setPrimaryRef (c : Catalog) (gid x : Nat) (g : BookGroup)
    (h : findGroup c gid = some g) :
    findGroup (setPrimaryRef c gid x) gid = some { g with primaryBookId := x } := by
  have hg : g.id = gid := by
    have h2 := h
    simp only [findGroup] at h2
    have hp := List.find?_some h2
    simp only [beq_iff_eq] at hp
    exact hp
  simp only [findGroup, setPrimaryRef] at h ⊢
  rw [List.find?_map]
  have hpf : ((fun g2 : BookGroup => g2.id == gid) ∘ fun g2 =>
      if g2.id == gid then { g2 with primaryBookId := x } else g2)
      = fun g2 : BookGroup => g2.id == gid := by
    funext g2
    cases h2 : g2.id == gid <;> simp [Function.comp, h2]
  rw [hpf, h]
  simp [hg]

/-- C7: when `ungroup_book` removes the group's primary and two or more
members remain, it re-points the group at a remaining member holding the
most versions; among several members with that maximal version count the
first row — under ascending id order, the lowest id — is chosen. -/
theorem ungroupBook_new_primary (c : Catalog) (bid gid : Nat)
    (book : Book) (g : BookGroup) (r s2 : Book) (srest : List Book)
    (hfind : findBook c bid = some book)
    (hgid : book.groupId = some gid) (h0 : gid ≠ 0)
    (hgrp : findGroup c gid = some g)
    (hwp : g.primaryBookId = bid)
    (hsorted : c.books.Pairwise (fun a b => a.id < b.id))
    (hrem : (setBookGroup c bid none).books.filter (fun b => b.groupId == some gid)
      = r :: s2 :: srest) :
    ∃ c2 np, ungroupBook c bid = .ok (c2, .success bid book.title true)
      ∧ findGroup c2 gid = some { g with primaryBookId := np.id }
      ∧ np ∈ r :: s2 :: srest
      ∧ (∀ b ∈ r :: s2 :: srest,
          (versionsOf c b).length ≤ (versionsOf c np).length)
      ∧ (∀ b ∈ r :: s2 :: srest,
          (versionsOf c b).length = (versionsOf c np).length → np.id ≤ b.id) := by
  have htrans : ∀ a b d : Book,
      (decide ((versionsOf (setBookGroup c bid none) a).length >
        (versionsOf (setBookGroup c bid none) b).length)) = true →
      (decide ((versionsOf (setBookGroup c bid none) b).length >
        (versionsOf (setBookGroup c bid none) d).length)) = true →
      (decide ((versionsOf (setBookGroup c bid none) a).length >
        (versionsOf (setBookGroup c bid none) d).length)) = true := by
    intro a b d h1 h2
    simp only [decide_eq_true_eq] at h1 h2 ⊢
    omega
  have hirrefl : ∀ a : Book,
      (decide ((versionsOf (setBookGroup c bid none) a).length >
        (versionsOf (setBookGroup c bid none) a).length)) = false := by
    intro a
    simp
  have hnegtrans : ∀ a b d : Book,
      (decide ((versionsOf (setBookGroup c bid none) a).length >
        (versionsOf (setBookGroup c bid none) b).length)) = false →
      (decide ((versionsOf (setBookGroup c bid none) b).length >
        (versionsOf (setBookGroup c bid none) d).length)) = false →
      (decide ((versionsOf (setBookGroup c bid none) a).length >
        (versionsOf (setBookGroup c bid none) d).length)) = false := by
    intro a b d h1 h2
    simp only [decide_eq_false_iff_not] at h1 h2 ⊢
    omega
  have hpair : (r :: s2 :: srest).Pairwise (fun a b => a.id < b.id) := by
    rw [← hrem]
    exact (pairwise_id_setBookGroup c bid none hsorted).sublist (List.filter_sublist _)
  refine ⟨setPrimaryRef (setBookGroup c bid none) gid
      (pyMax (fun a b => (versionsOf (setBookGroup c bid none) a).length >
        (versionsOf (setBookGroup c bid none) b).length) r (s2 :: srest)).id,
    pyMax (fun a b => (versionsOf (setBookGroup c bid none) a).length >
      (versionsOf (setBookGroup c bid none) b).length) r (s2 :: srest),
    ?_, ?_, ?_, ?_, ?_⟩
  · simp only [ungroupBook, hfind, hgid, hgrp]
    simp [h0, hrem, hwp]
  · exact findGroup_setPrimaryRef _ gid _ g hgrp
  · exact pyMax_mem _ r (s2 :: srest)
  · intro b hb
    have hv : ∀ b2 : Book, versionsOf (setBookGroup c bid none) b2 = versionsOf c b2 :=
      fun b2 => rfl
    have hmax := pyMax_not_gt _ htrans hirrefl hnegtrans r (s2 :: srest) b hb
    simp only [decide_eq_false_iff_not, hv] at hmax
    simp only [hv]
    omega
  · intro b hb heq
    have hv : ∀ b2 : Book, versionsOf (setBookGroup c bid none) b2 = versionsOf c b2 :=
      fun b2 => rfl
    exact pyMax_tie_first _ Book.id htrans hirrefl hnegtrans r (s2 :: srest) hpair b hb
      (by simp [hv, heq]) (by simp [hv, heq])

theorem ungroupBook_new_primary_witness :
    ∃ c2 np, ungroupBook cat7 1 = .ok (c2, .success 1 "T1" true)
      ∧ findGroup c2 1 = some { id := 1, name := "G", primaryBookId := np.id }
      ∧ np ∈ [(⟨2, "T2", some "A", some 1, 1, 1⟩ : Book), ⟨3, "T3", some "A", some 1, 2, 1⟩]
      ∧ (∀ b ∈ [(⟨2, "T2", some "A", some 1, 1, 1⟩ : Book), ⟨3, "T3", some "A", some 1, 2, 1⟩],
          (versionsOf cat7 b).length ≤ (versionsOf cat7 np).length)
      ∧ (∀ b ∈ [(⟨2, "T2", some "A", some 1, 1, 1⟩ : Book), ⟨3, "T3", some "A", some 1, 2, 1⟩],
          (versionsOf cat7 b).length = (versionsOf cat7 np).length → np.id ≤ b.id) :=
  ungroupBook_new_primary cat7 1 1 ⟨1, "T1", some "A", some 1, 0, 1⟩ ⟨1, "G", 1⟩
    ⟨2, "T2", some "A", some 1, 1, 1⟩ ⟨3, "T3", some "A", some 1, 2, 1⟩ []
    (by decide) (by decide) (by decide) (by decide) (by decide) (by decide) (by decide)

/-! ### C6: the scanner's suggested-primary selection -/

theorem prGt_trans (p q r : Nat × Nat × Nat × Int) :
    prGt p q = true → prGt q r = true → prGt p r = true := by
  intro h1 h2
  obtain ⟨p1, p2, p3, p4⟩ := p
  obtain ⟨q1, q2, q3, q4⟩ := q
  obtain ⟨r1, r2, r3, r4⟩ := r
  simp only [prGt] at h1 h2 ⊢
  split_ifs at h1 h2 ⊢ <;> simp_all <;> omega

theorem prGt_irrefl (p : Nat × Nat × Nat × Int) : prGt p p = false := by
  obtain ⟨p1, p2, p3, p4⟩ := p
  simp [prGt]

theorem prGt_negtrans (p q r : Nat × Nat × Nat × Int) :
    prGt p q = false → prGt q r = false → prGt p r = false := by
  intro h1 h2
  obtain ⟨p1, p2, p3, p4⟩ := p
  obtain ⟨q1, q2, q3, q4⟩ := q
  obtain ⟨r1, r2, r3, r4⟩ := r
  simp only [prGt] at h1 h2 ⊢
  split_ifs at h1 h2 ⊢ <;> simp_all <;> omega

/-- C6 counterexample: component (c) of the selection priority is the largest
single version file size, not the total byte size.  Books 1 and 2 tie on
group-primary status and version count; book 1 has the larger total
(20 vs 16) and the earlier added timestamp, so the claimed priority selects
book 1 — but the scanner suggests book 2, whose largest single version (15)
beats book 1's (10). -/
theorem suggestedPrimary_not_total_size :
    (suggestedPrimary cat6 bookA6 [bookB6]).id = 2
      ∧ (specSuggestedPrimary cat6 bookA6 [bookB6]).id = 1
      ∧ (getPriority cat6 bookA6).1 = 0 ∧ (getPriority cat6 bookB6).1 = 0
      ∧ (versionsOf cat6 bookA6).length = (versionsOf cat6 bookB6).length
      ∧ ((versionsOf cat6 bookA6).map (fun v => v.fileSize)).sum = 20
      ∧ ((versionsOf cat6 bookB6).map (fun v => v.fileSize)).sum = 16
      ∧ bookA6.addedAt < bookB6.addedAt := by
  refine ⟨by decide, by decide, by decide, by decide, by decide, by decide, by decide,
    by decide⟩

/-- C6 (amended): the scanner's suggested primary for a proposed cluster is
the member maximal under the lexicographic priority (a) already the primary
of an existing group, (b) most versions, (c) largest SINGLE version byte
size, (d) earliest added timestamp; on a full priority tie the first cluster
row — the lowest id under ascending id order — is kept. -/
theorem suggestedPrimary_spec (c : Catalog) (x : Book) (xs : List Book)
    (hsorted : (x :: xs).Pairwise (fun a b => a.id < b.id)) :
    suggestedPrimary c x xs ∈ x :: xs
      ∧ (∀ b ∈ x :: xs,
          prGt (getPriority c b) (getPriority c (suggestedPrimary c x xs)) = false)
      ∧ (∀ b ∈ x :: xs, getPriority c b = getPriority c (suggestedPrimary c x xs) →
          (suggestedPrimary c x xs).id ≤ b.id) := by
  simp only [suggestedPrimary]
  refine ⟨pyMax_mem _ x xs, ?_, ?_⟩
  · intro b hb
    exact pyMax_not_gt (fun a a2 => prGt (getPriority c a) (getPriority c a2))
      (fun a b2 d => prGt_trans _ _ _) (fun a => prGt_irrefl _)
      (fun a b2 d => prGt_negtrans _ _ _) x xs b hb
  · intro b hb heq
    exact pyMax_tie_first (fun a a2 => prGt (getPriority c a) (getPriority c a2)) Book.id
      (fun a b2 d => prGt_trans _ _ _)
      (fun a => prGt_irrefl _) (fun a b2 d => prGt_negtrans _ _ _) x xs hsorted b hb
      (by simp only [heq]; exact prGt_irrefl _) (by simp only [heq]; exact prGt_irrefl _)

theorem suggestedPrimary_spec_witness :
    suggestedPrimary cat6 bookA6 [bookB6] ∈ [bookA6, bookB6]
      ∧ (∀ b ∈ [bookA6, bookB6],
          prGt (getPriority cat6 b)
            (getPriority cat6 (suggestedPrimary cat6 bookA6 [bookB6])) = false)
      ∧ (∀ b ∈ [bookA6, bookB6],
          getPriority cat6 b = getPriority cat6 (suggestedPrimary cat6 bookA6 [bookB6]) →
          (suggestedPrimary cat6 bookA6 [bookB6]).id ≤ b.id) :=
  suggestedPrimary_spec cat6 bookA6 [bookB6] (by decide)

end NovelLib
